import Mathlib

/-!
Verification of the time-tracker bot (`src/bot.py`) against its
natural-language specification.

Shallow embedding conventions:
* Timestamps are absolute instants, measured in whole seconds as `Int`
  (Python `datetime` objects compared as absolute instants).
* Moscow time (the configured display timezone, `MOSCOW_TZ`, UTC+3 with no
  DST since 2014) is modelled as the fixed offset `10800` seconds.
* Persistence (`sqlite3`) is modelled as explicit state passing; the
  boolean that `save_activity` returns on an `INSERT` failure is modelled
  by an explicit `appendOk` flag on the fallible variant of the handler.
-/

namespace TimeTrackerBot

/-- `MOSCOW_TZ` offset from UTC, in seconds (+03:00, fixed). -/
def moscowOffset : Int := 10800

/-- Calendar day number of an instant in Moscow time (days since epoch;
`/` on `Int` is floor division for this positive divisor, matching Python). -/
def moscowDate (t : Int) : Int := (t + moscowOffset) / 86400

/-- Seconds since Moscow midnight for an instant. -/
def moscowTimeOfDay (t : Int) : Int := (t + moscowOffset) % 86400

/-- The instant of Moscow midnight of the Moscow day containing `t`. -/
def moscowDayStart (t : Int) : Int := moscowDate t * 86400 - moscowOffset

/-- Calendar day number of an instant in UTC. -/
def utcDate (t : Int) : Int := t / 86400

/-- Calendar day number of an instant in the timezone of the host process
(offset `off` seconds from UTC); SQLite's `"localtime"` modifier. -/
def localDate (off : Int) (t : Int) : Int := (t + off) / 86400

/-- The fixed name-to-category table of `get_activity_category` (src/bot.py
lines 164-174), transcribed verbatim. -/
def categories : List (String × String) :=
  [("Проснулся", "Сон"), ("Полистал ленту", "Развлечения"), ("В туалет", "Гигиена"),
   ("Гигиена", "Гигиена"), ("Завтрак", "Еда"), ("Одеваюсь", "Подготовка"), ("Домой", "Переход"),
   ("Сесть за комп", "Компьютер"), ("Игры", "Игры"), ("Учеба/ДЗ", "Учеба"),
   ("Обед/Ужин", "Еда"), ("Отдых", "Развлечения"), ("Уборка", "Бытовые"),
   ("Вечерняя гигиена", "Гигиена"), ("Лег в кровать", "Отдых"),
   ("Вечерний серфинг", "Развлечения"), ("Спать", "Сон"),
   ("Выхожу на учебу", "Учеба"), ("Иду гулять", "Отдых"), ("Время с близкими", "Социальное")]

/-- `get_activity_category`: dictionary lookup with default `"Другое"`. -/
def get_activity_category (n : String) : String := (categories.lookup n).getD "Другое"

/-- Python's `activity_name.startswith("Другое:")` from `save_activity`. -/
def startsWithOther (n : String) : Bool := "Другое:".data.isPrefixOf n.data

/-- The category actually stored by `save_activity` (src/bot.py line 152):
`"Другое" if activity_name.startswith("Другое:") else get_activity_category(activity_name)`. -/
def classify (n : String) : String :=
  if startsWithOther n then "Другое" else get_activity_category n

/-- A row of the `activities` table (the Ledger). -/
structure ActivityRecord where
  user_id : Nat
  activity_name : String
  category : String
  start_time : Int
  end_time : Int
  duration : Int
deriving DecidableEq, Repr

/-- The record built and inserted by `save_activity` (src/bot.py 147-162):
`duration = int((end_time - start_time).total_seconds())`. -/
def save_activity (uid : Nat) (name : String) (st et : Int) : ActivityRecord :=
  { user_id := uid, activity_name := name, category := classify name,
    start_time := st, end_time := et, duration := et - st }

/-- One user's persistent state: the `user_sessions` row
(`current_activity`, `activity_start`), and the user's rows of the
`activities` table in insertion order (append-only Ledger). -/
structure UserState where
  session : Option (String × Int)
  ledger : List ActivityRecord
deriving DecidableEq, Repr

/-- `handle_activity_start` (src/bot.py 363-386) with the outcome of the
Ledger `INSERT` made explicit: `save_activity` returns `False` on a
database error (no row inserted), and the caller ignores that return
value, unconditionally proceeding to `update_user_session`. -/
def handle_activity_start_io (uid : Nat) (s : UserState) (name : String)
    (eff : Int) (appendOk : Bool) : UserState :=
  { session := some (name, eff),
    ledger := match s.session with
      | some (pn, ps) => if appendOk then s.ledger ++ [save_activity uid pn ps eff] else s.ledger
      | none => s.ledger }

/-- `handle_activity_start` on the happy path (every `INSERT` succeeds):
close the open session at the new activity's effective time, then open
the new one. -/
def handle_activity_start (uid : Nat) (s : UserState) (name : String)
    (eff : Int) : UserState :=
  handle_activity_start_io uid s name eff true

/-! ## Time Input Parser (`parse_time_input`, src/bot.py 111-134)

Python tries `strptime` with the formats `%H:%M`, `%H:%M:%S`, `%H.%M`,
`%H.%M.%S` in order.  `strptime` requires each numeric field to be one or
two digits, bounds `%H ≤ 23`, `%M ≤ 59`, `%S ≤ 61`, and the whole input to
be consumed.  On success the hour/minute/second are combined with the
current Moscow calendar date and localized in `MOSCOW_TZ`. -/

/-- One `strptime` numeric field: one or two digits within `0..hi`. -/
def parseField (s : List Char) (hi : Nat) : Option Nat :=
  if s.length = 0 ∨ 2 < s.length then none
  else if s.all Char.isDigit then
    let n := s.foldl (fun a c => a * 10 + (c.toNat - 48)) 0
    if n ≤ hi then some n else none
  else none

/-- Split a character list on a separator character (like Python's
`str.split(sep)`: preserves empty components). -/
def splitOnChar (sep : Char) : List Char → List (List Char)
  | [] => [[]]
  | c :: rest =>
    if c = sep then [] :: splitOnChar sep rest
    else match splitOnChar sep rest with
      | g :: gs => (c :: g) :: gs
      | [] => [[c]]

/-- Clock time `H<sep>M` or `H<sep>M<sep>S` as seconds since midnight. -/
def parseSep (sep : Char) (s : List Char) : Option Nat :=
  match splitOnChar sep s with
  | [h, m] => do
      let hh ← parseField h 23
      let mm ← parseField m 59
      pure (hh * 3600 + mm * 60)
  | [h, m, sec] => do
      let hh ← parseField h 23
      let mm ← parseField m 59
      let ss ← parseField sec 61
      pure (hh * 3600 + mm * 60 + ss)
  | _ => none

/-- The four accepted formats, tried in the source's order (`:`-separated
forms before `.`-separated forms; a string cannot match both families). -/
def parseClock (s : String) : Option Nat :=
  match parseSep ':' s.data with
  | some v => some v
  | none => parseSep '.' s.data

/-- `parse_time_input`: on a recognized clock time, the parsed seconds
since midnight placed on the current Moscow calendar date of `now`. -/
def parse_time_input (s : String) (now : Int) : Option Int :=
  (parseClock s).map (fun sod => moscowDayStart now + (sod : Int))

/-- The spec's `ParseError` kinds (§7). -/
inductive ParseError where
  | Unrecognized
  | Future
deriving DecidableEq, Repr

/-- The full validation performed on a backdated time: `parse_time_input`
followed by the future check `start_time > current_time` of
`handle_past_activity_time` (src/bot.py 501-534). -/
def parse (s : String) (now : Int) : Except ParseError Int :=
  match parse_time_input s now with
  | none => .error .Unrecognized
  | some t => if now < t then .error .Future else .ok t

/-! ## Message-handler level state (the `user_states` FSM) -/

/-- The per-user values stored in the global `user_states` dictionary. -/
inductive UserFSM where
  | waiting_for_activity
  | waiting_for_past_activity
  | waiting_for_past_custom_activity
  | waiting_for_past_time (activity : String)
deriving DecidableEq, Repr

/-- One user's full state as the handlers see it: the `user_states` entry
(`none` when absent) plus the persistent `UserState`. -/
structure ChatState where
  fsm : Option UserFSM
  core : UserState
deriving DecidableEq, Repr

/-- Python's `str.strip()` (modelling the whitespace class as ASCII
whitespace, which covers every character the claims exercise). -/
def pyStrip (s : String) : String :=
  ⟨((s.data.dropWhile Char.isWhitespace).reverse.dropWhile Char.isWhitespace).reverse⟩

/-- `handle_custom_activity` (src/bot.py 560-571), dispatched only while
`user_states[user_id] == "waiting_for_activity"`: strip the text, reject
it (leaving every piece of state untouched) when longer than 100
characters, otherwise clear the FSM entry and start `"Другое: " + text`. -/
def handle_custom_activity (uid : Nat) (st : ChatState) (text : String)
    (now : Int) : ChatState :=
  let custom := pyStrip text
  if 100 < custom.length then st
  else { fsm := none,
         core := handle_activity_start uid st.core ("Другое: " ++ custom) now }

/-- `handle_past_custom_activity` (src/bot.py 537-557), dispatched only
while `user_states[user_id] == "waiting_for_past_custom_activity"`: same
length guard; on success only the FSM entry advances to
`waiting_for_past_time` carrying `"Другое: " + text` (the Session Store
and Ledger are untouched either way). -/
def handle_past_custom_activity (uid : Nat) (st : ChatState) (text : String) : ChatState :=
  let custom := pyStrip text
  if 100 < custom.length then st
  else { st with fsm := some (.waiting_for_past_time ("Другое: " ++ custom)) }

/-- `handle_past_activity_time` (src/bot.py 501-534), dispatched while the
FSM entry is `waiting_for_past_time activity`: re-prompt (state unchanged)
on an unrecognized or future time, otherwise clear the FSM entry and run
`handle_activity_start` with the parsed (backdated) start. -/
def handle_past_activity_time (uid : Nat) (st : ChatState) (activity : String)
    (text : String) (now : Int) : ChatState :=
  match parse_time_input text now with
  | none => st
  | some t =>
    if now < t then st
    else { fsm := none, core := handle_activity_start uid st.core activity t }

/-! ## Iterated starts (for the tiling property) -/

/-- A sequence of `handle_activity_start` transitions,
each given by an activity name and its effective time. -/
def runStarts (uid : Nat) (s : UserState) : List (String × Int) → UserState
  | [] => s
  | (n, t) :: rest => runStarts uid (handle_activity_start uid s n t) rest

/-- The closed form of the Ledger produced by `runStarts` from `Idle`:
each start closes its predecessor at the successor's effective time. -/
def expectedLedger (uid : Nat) : List (String × Int) → List ActivityRecord
  | (n₁, t₁) :: (n₂, t₂) :: rest =>
      save_activity uid n₁ t₁ t₂ :: expectedLedger uid ((n₂, t₂) :: rest)
  | _ => []

/-! ## `force_close_all` (modelled from the spec) -/

/-- Whole-system state for shutdown recovery: every user's open session
(`user_sessions` rows with a non-null activity) plus the shared Ledger. -/
structure GlobalState where
  sessions : List (Nat × String × Int)
  ledger : List ActivityRecord
deriving DecidableEq, Repr

/-- Modelled from the spec: the repository contains no `force_close_all`
implementation (src/bot.py installs no shutdown hook), so §4.5's contract
is embedded from the spec's words: for every user with an `Active`
session, perform the close step (append the record built by
`save_activity` with `effective_time = now`) and then clear that user's
Session Store entry. -/
def force_close_all (st : GlobalState) (now : Int) : GlobalState :=
  { sessions := [],
    ledger := st.ledger ++ st.sessions.map (fun u => save_activity u.1 u.2.1 u.2.2 now) }

/-! ## Statistics Aggregator (`format_detailed_statistics`, src/bot.py 238-301) -/

/-- Python's `activity_name.replace("Другое: ", "")`: delete every
(left-to-right, non-overlapping) occurrence of the 8-character pattern. -/
def stripOtherData : List Char → List Char
  | 'Д' :: 'р' :: 'у' :: 'г' :: 'о' :: 'е' :: ':' :: ' ' :: rest => stripOtherData rest
  | c :: rest => c :: stripOtherData rest
  | [] => []

/-- String wrapper of `stripOtherData`. -/
def stripOther (s : String) : String := ⟨stripOtherData s.data⟩

/-- One step of the `activity_totals` accumulation: Python's
`dict` update `activity_totals[name] += duration` (inserting `0` first
when the key is new), preserving insertion order. -/
def addTotal (acc : List (String × Int)) (name : String) (d : Int) : List (String × Int) :=
  if acc.any (fun p => p.1 == name) then
    acc.map (fun p => if p.1 == name then (p.1, p.2 + d) else p)
  else acc ++ [(name, d)]

/-- The `activity_totals` dictionary of `format_detailed_statistics`
(src/bot.py 250-256): keyed by activity name with the `"Другое: "` prefix
stripped, summing `duration`, in first-encounter order. -/
def activity_totals (recs : List ActivityRecord) : List (String × Int) :=
  recs.foldl (fun acc r => addTotal acc (stripOther r.activity_name) r.duration) []

/-- Stable-descending insertion: place `x` after every earlier group with
a strictly larger total and before the rest. -/
def insertByTotal (x : String × Int) : List (String × Int) → List (String × Int)
  | [] => [x]
  | y :: ys => if x.2 < y.2 then y :: insertByTotal x ys else x :: y :: ys

/-- Python's `sorted(activity_totals.items(), key=lambda x: x[1],
reverse=True)` (src/bot.py 260): the stable descending sort by total.
A stable sort's output is unique, so stable insertion sort is an exact
model of Python's stable `sorted`. -/
def sortByTotal : List (String × Int) → List (String × Int)
  | [] => []
  | x :: xs => insertByTotal x (sortByTotal xs)

/-- The summary section of `format_detailed_statistics`: the day's groups
with their total durations, in the rendered order. -/
def summarize (recs : List ActivityRecord) : List (String × Int) :=
  sortByTotal (activity_totals recs)

/-- Modelled from the spec's words for comparison (refinement target of
claim C4 only): the same accumulation keyed by `category` instead of the
prefix-stripped activity name. -/
def category_totals (recs : List ActivityRecord) : List (String × Int) :=
  recs.foldl (fun acc r => addTotal acc r.category r.duration) []

/-- Observation: the total recorded in a totals table for a given key
(zero when the key is absent; the sum over duplicates otherwise). -/
def sumFor : List (String × Int) → String → Int
  | [], _ => 0
  | p :: ps, name => (if p.1 = name then p.2 else 0) + sumFor ps name

/-- Observation: the summed duration of the records whose prefix-stripped
activity name is `name`. -/
def durationFor : List ActivityRecord → String → Int
  | [], _ => 0
  | r :: rs, name =>
      (if stripOther r.activity_name = name then r.duration else 0) + durationFor rs name

/-- Day filter of `get_detailed_statistics` (src/bot.py 211-216):
`DATE(start_time) = DATE("now", "localtime")`.  The stored `start_time`
carries the `+03:00` suffix (an aware Moscow datetime rendered by the
sqlite3 adapter), and SQLite's date functions convert such a value to UTC
before taking the date, so the left side is the record's UTC date; the
right side is the current date in the host process's local timezone. -/
def selectedToday (off : Int) (recordStart now : Int) : Bool :=
  utcDate recordStart == localDate off now

/-! ## Helper lemmas -/

lemma isPrefixOf_append_self (p q : List Char) : p.isPrefixOf (p ++ q) = true := by
  induction p with
  | nil => simp [List.isPrefixOf]
  | cons c cs ih => simp [List.isPrefixOf, ih]

lemma startsWithOther_of_other_name (s : String) :
    startsWithOther ("Другое: " ++ s) = true := by
  have hdata : ("Другое: " ++ s).data = "Другое:".data ++ (' ' :: s.data) := by
    have h1 : ("Другое: " ++ s).data = "Другое: ".data ++ s.data := String.data_append _ _
    have h2 : "Другое: ".data = "Другое:".data ++ [' '] := by decide
    rw [h1, h2, List.append_assoc]
    rfl
  show ("Другое:".data.isPrefixOf ("Другое: " ++ s).data) = true
  rw [hdata]
  exact isPrefixOf_append_self _ _

lemma lookup_eq_none_of_not_key {n : String} :
    ∀ l : List (String × String), n ∉ l.map Prod.fst → l.lookup n = none := by
  intro l
  induction l with
  | nil => intro _; rfl
  | cons p ps ih =>
    intro h
    simp only [List.map_cons, List.mem_cons] at h
    push_neg at h
    simp only [List.lookup]
    rw [beq_eq_false_iff_ne.mpr h.1]
    exact ih h.2

example : classify "Игры" = "Игры" := by decide

example : parseClock "14:30" = some 52200 := by decide
example : parseClock "14:30:00" = some 52200 := by decide
example : parseClock "14.30" = some 52200 := by decide
example : parseClock "14:60" = none := by decide
example : parseClock "14" = none := by decide
example : parseClock "abc" = none := by decide
example : parseClock "4:5" = some 14700 := by decide
example : parseClock "14:30.00" = none := by decide
example : parse_time_input "14:30" 133200 = some 127800 := by decide
example : stripOther "Другое: Читал" = "Читал" := by decide
example : pyStrip "  ab " = "ab" := by decide

/-! ## Claim C1 (code_bug evidence) -/

/-- C1: the spec requires that when appending the closing record to the
Ledger fails, the whole `start_activity` transition fails atomically,
leaving the prior open session untouched.  The code instead ignores
`save_activity`'s failure return: at the failing input below (open
session `("Игры", 100)`, new start `"Отдых"` at `200`, `INSERT` fails) the
close is silently dropped (Ledger unchanged) **and** the session is still
overwritten with the new activity — the prior open session is destroyed. -/
theorem C1_failed_append_still_opens :
    handle_activity_start_io 1 ⟨some ("Игры", 100), []⟩ "Отдых" 200 false
      = ⟨some ("Отдых", 200), []⟩ := by
  decide

/-! ## Claim C6 (force_close_all, modelled from the spec) -/

/-- C6: `force_close_all` is idempotent — after one invocation no `Active`
session remains, and a second invocation with no intervening
`start_activity` is a no-op: it appends no second record and changes
nothing (being a total function, it also raises no error). -/
theorem C6_force_close_all_idempotent (st : GlobalState) (now now' : Int) :
    (force_close_all st now).sessions = [] ∧
    force_close_all (force_close_all st now) now' = force_close_all st now := by
  simp [force_close_all]

/-! ## Claim C7 (the category classifier) -/

/-- C7: `classify` (a total pure Lean function, hence never failing and
side-effect free) maps every name carrying the reserved `"Другое: "`
prefix to `"Другое"` regardless of the suffix, maps every name of the
fixed table to that table's label, and maps every name outside the table
to `"Другое"`. -/
theorem C7_classify_total_lookup :
    (∀ s : String, classify ("Другое: " ++ s) = "Другое") ∧
    (∀ n c : String, (n, c) ∈ categories → classify n = c) ∧
    (∀ n : String, n ∉ categories.map Prod.fst → classify n = "Другое") := by
  refine ⟨?_, ?_, ?_⟩
  · intro s
    simp [classify, startsWithOther_of_other_name s]
  · intro n c h
    have hall : categories.all (fun p => classify p.1 == p.2) = true := by decide
    have := List.all_eq_true.mp hall (n, c) h
    simpa using this
  · intro n hn
    unfold classify
    split
    · rfl
    · unfold get_activity_category
      rw [lookup_eq_none_of_not_key categories hn]
      rfl

/-- Witness for C7 at concrete inputs. -/
theorem C7_classify_total_lookup_witness :
    classify ("Другое: " ++ "читал книгу") = "Другое" ∧
    (("Игры", "Игры") ∈ categories ∧ classify "Игры" = "Игры") ∧
    ("Плавание" ∉ categories.map Prod.fst ∧ classify "Плавание" = "Другое") :=
  ⟨C7_classify_total_lookup.1 "читал книгу",
   ⟨by decide, C7_classify_total_lookup.2.1 "Игры" "Игры" (by decide)⟩,
   ⟨by decide, C7_classify_total_lookup.2.2 "Плавание" (by decide)⟩⟩

/-! ## Claim C8 (parse errors: exactly unrecognized-or-future) -/

/-- C8: the backdated-time validation returns an error exactly when the
input matches none of the accepted clock formats (`Unrecognized`) or the
parsed instant is strictly later than the reference time (`Future`); in
particular every accepted timestamp satisfies `t ≤ now`, so every
strictly-future time is rejected for every reference time. -/
theorem C8_parse_error_characterization (s : String) (now : Int) :
    (parse s now = .error .Unrecognized ↔ parseClock s = none) ∧
    (parse s now = .error .Future ↔ ∃ t, parse_time_input s now = some t ∧ now < t) ∧
    (∀ t, parse s now = .ok t → parse_time_input s now = some t ∧ t ≤ now) := by
  cases hc : parseClock s with
  | none =>
    have hp : parse_time_input s now = none := by simp [parse_time_input, hc]
    have key : parse s now = .error .Unrecognized := by
      unfold parse
      rw [hp]
    refine ⟨⟨fun _ => rfl, fun _ => key⟩, ⟨?_, ?_⟩, ?_⟩
    · intro h
      rw [key] at h
      cases h
    · rintro ⟨t', ht', -⟩
      rw [hp] at ht'
      cases ht'
    · intro t' ht'
      rw [key] at ht'
      cases ht'
  | some v =>
    have hp : parse_time_input s now = some (moscowDayStart now + (v : Int)) := by
      simp [parse_time_input, hc]
    have key : parse s now =
        if now < moscowDayStart now + (v : Int) then .error .Future
        else .ok (moscowDayStart now + (v : Int)) := by
      unfold parse
      rw [hp]
    refine ⟨⟨?_, ?_⟩, ⟨?_, ?_⟩, ?_⟩
    · intro h
      rw [key] at h
      split at h <;> cases h
    · intro h
      cases h
    · intro h
      rw [key] at h
      by_cases hf : now < moscowDayStart now + (v : Int)
      · exact ⟨_, hp, hf⟩
      · rw [if_neg hf] at h
        cases h
    · rintro ⟨t', ht', hlt⟩
      rw [hp] at ht'
      cases ht'
      rw [key, if_pos hlt]
    · intro t' ht'
      rw [key] at ht'
      by_cases hf : now < moscowDayStart now + (v : Int)
      · rw [if_pos hf] at ht'
        cases ht'
      · rw [if_neg hf] at ht'
        cases ht'
        exact ⟨hp, le_of_not_lt hf⟩

/-- Witness for C8: a malformed input is `Unrecognized`, and a time later
than the reference instant is `Future`. -/
theorem C8_parse_error_characterization_witness :
    parse "abc" 0 = .error .Unrecognized ∧
    parse "23:59" 0 = .error .Future :=
  ⟨(C8_parse_error_characterization "abc" 0).1.mpr (by decide),
   (C8_parse_error_characterization "23:59" 0).2.1.mpr ⟨75540, by decide, by decide⟩⟩

/-! ## Claim C9 (the three sample formats agree) -/

/-- C9: for every reference time, `"14:30"`, `"14:30:00"` and `"14.30"`
are all accepted and yield the same absolute instant, whose Moscow time
of day is 14:30:00 (52200 seconds) and whose Moscow calendar date is the
reference day. -/
theorem C9_three_formats_same_instant (now : Int) :
    parse_time_input "14:30" now = some (moscowDayStart now + 52200) ∧
    parse_time_input "14:30:00" now = some (moscowDayStart now + 52200) ∧
    parse_time_input "14.30" now = some (moscowDayStart now + 52200) ∧
    moscowTimeOfDay (moscowDayStart now + 52200) = 52200 ∧
    moscowDate (moscowDayStart now + 52200) = moscowDate now := by
  have h1 : parseClock "14:30" = some 52200 := by decide
  have h2 : parseClock "14:30:00" = some 52200 := by decide
  have h3 : parseClock "14.30" = some 52200 := by decide
  refine ⟨by simp [parse_time_input, h1], by simp [parse_time_input, h2],
          by simp [parse_time_input, h3], ?_, ?_⟩
  · simp only [moscowTimeOfDay, moscowDayStart, moscowDate, moscowOffset]
    omega
  · simp only [moscowDate, moscowDayStart, moscowOffset]
    omega

/-! ## Claim C2 (ledger invariants vs backdating) -/

/-- C2 counterexample: a backdated start accepted by the full validation
pipeline produces a ledger record violating `end_time ≥ start_time` and
`duration ≥ 0`.  The user has an open session `("Игры")` since 15:00
Moscow time of day 1 (instant `129600`), the current instant is 16:00
(`133200`), and they backdate a new start to `"14:30"` (instant `127800`,
in the past, so the future check passes): the closing record runs from
`129600` back to `127800` with duration `-1800`. -/
theorem C2_backdate_negative_duration :
    (handle_past_activity_time 1
        ⟨some (.waiting_for_past_time "Игры"), ⟨some ("Игры", 129600), []⟩⟩
        "Игры" "14:30" 133200).core.ledger
      = [save_activity 1 "Игры" 129600 127800] ∧
    (save_activity 1 "Игры" 129600 127800).duration < 0 ∧
    (save_activity 1 "Игры" 129600 127800).end_time
      < (save_activity 1 "Игры" 129600 127800).start_time := by
  decide

/-- C2 amended: every written record satisfies
`duration = end_time - start_time`; the Ledger is append-only (a
transition never updates or deletes existing records, it only appends);
and `end_time ≥ start_time` with `duration ≥ 0` holds for every close
whose effective time is not earlier than the open session's start —
backdating below the open session's start is the one way to break it. -/
theorem C2_ledger_invariants (uid : Nat) (s : UserState) (name : String) (eff : Int) :
    (s.session = none → (handle_activity_start uid s name eff).ledger = s.ledger) ∧
    (∀ pn ps, s.session = some (pn, ps) →
      (handle_activity_start uid s name eff).ledger
        = s.ledger ++ [save_activity uid pn ps eff] ∧
      (save_activity uid pn ps eff).duration
        = (save_activity uid pn ps eff).end_time - (save_activity uid pn ps eff).start_time ∧
      (ps ≤ eff →
        (save_activity uid pn ps eff).start_time ≤ (save_activity uid pn ps eff).end_time ∧
        0 ≤ (save_activity uid pn ps eff).duration)) := by
  constructor
  · intro h
    simp [handle_activity_start, handle_activity_start_io, h]
  · intro pn ps h
    refine ⟨by simp [handle_activity_start, handle_activity_start_io, h], rfl, ?_⟩
    intro hle
    refine ⟨hle, ?_⟩
    show (0 : Int) ≤ eff - ps
    omega

/-- Witness for C2 amended at a concrete non-backdated close. -/
theorem C2_ledger_invariants_witness :
    (handle_activity_start 1 ⟨some ("Игры", 100), []⟩ "Отдых" 200).ledger
      = [save_activity 1 "Игры" 100 200] ∧
    0 ≤ (save_activity 1 "Игры" 100 200).duration :=
  ⟨((C2_ledger_invariants 1 ⟨some ("Игры", 100), []⟩ "Отдых" 200).2 "Игры" 100 rfl).1,
   (((C2_ledger_invariants 1 ⟨some ("Игры", 100), []⟩ "Отдых" 200).2 "Игры" 100 rfl).2.2
      (by decide)).2⟩

/-! ## Claim C3 (the timeline tiles under increasing starts) -/

lemma runStarts_closed (uid : Nat) :
    ∀ (l : List (String × Int)) (n : String) (t : Int) (L : List ActivityRecord),
      (runStarts uid ⟨some (n, t), L⟩ l).ledger = L ++ expectedLedger uid ((n, t) :: l) := by
  intro l
  induction l with
  | nil =>
    intro n t L
    simp [runStarts, expectedLedger]
  | cons x rest ih =>
    intro n t L
    obtain ⟨n1, t1⟩ := x
    have hstep : handle_activity_start uid ⟨some (n, t), L⟩ n1 t1
        = ⟨some (n1, t1), L ++ [save_activity uid n t t1]⟩ := rfl
    show (runStarts uid (handle_activity_start uid ⟨some (n, t), L⟩ n1 t1) rest).ledger = _
    rw [hstep, ih n1 t1]
    simp [expectedLedger]

lemma runStarts_from_idle (uid : Nat) (l : List (String × Int)) :
    (runStarts uid ⟨none, []⟩ l).ledger = expectedLedger uid l := by
  cases l with
  | nil => rfl
  | cons x rest =>
    obtain ⟨n, t⟩ := x
    have hstep : handle_activity_start uid ⟨none, []⟩ n t = ⟨some (n, t), []⟩ := rfl
    show (runStarts uid (handle_activity_start uid ⟨none, []⟩ n t) rest).ledger = _
    rw [hstep, runStarts_closed uid rest n t []]
    rfl

lemma expectedLedger_chain (uid : Nat) : ∀ l : List (String × Int),
    List.Chain' (fun r1 r2 => r1.end_time = r2.start_time) (expectedLedger uid l)
  | [] => List.chain'_nil
  | [⟨_, _⟩] => by simp [expectedLedger]
  | ⟨n1, t1⟩ :: ⟨n2, t2⟩ :: rest => by
    have ih := expectedLedger_chain uid (⟨n2, t2⟩ :: rest)
    show List.Chain' _ (save_activity uid n1 t1 t2 :: expectedLedger uid (⟨n2, t2⟩ :: rest))
    cases rest with
    | nil => simp [expectedLedger]
    | cons y ys =>
      obtain ⟨n3, t3⟩ := y
      rw [show expectedLedger uid (⟨n2, t2⟩ :: ⟨n3, t3⟩ :: ys)
            = save_activity uid n2 t2 t3 :: expectedLedger uid (⟨n3, t3⟩ :: ys) from rfl] at ih ⊢
      exact List.Chain'.cons rfl ih

lemma expectedLedger_pos (uid : Nat) : ∀ l : List (String × Int),
    l.Chain' (fun a b => a.2 < b.2) →
    ∀ r ∈ expectedLedger uid l, r.start_time < r.end_time
  | [] => by simp [expectedLedger]
  | [⟨_, _⟩] => by simp [expectedLedger]
  | ⟨n1, t1⟩ :: ⟨n2, t2⟩ :: rest => by
    intro hchain r hr
    rw [show expectedLedger uid (⟨n1, t1⟩ :: ⟨n2, t2⟩ :: rest)
          = save_activity uid n1 t1 t2 :: expectedLedger uid (⟨n2, t2⟩ :: rest) from rfl] at hr
    rcases List.mem_cons.mp hr with rfl | hr'
    · exact (List.chain'_cons.mp hchain).1
    · exact expectedLedger_pos uid (⟨n2, t2⟩ :: rest) (List.chain'_cons.mp hchain).2 r hr'

/-- C3: starting from `Idle` with an empty Ledger, a sequence of
`start_activity` transitions with strictly increasing effective times
leaves a Ledger in the closed form `expectedLedger` (record *i* runs from
time *i* to time *i+1*), so consecutive records satisfy
`end_time i = start_time (i+1)` and every record has
`start_time < end_time`: the records tile the covered timeline with no
gaps and no overlaps. -/
theorem C3_ledger_tiles (uid : Nat) (l : List (String × Int))
    (hinc : l.Chain' (fun a b => a.2 < b.2)) :
    (runStarts uid ⟨none, []⟩ l).ledger = expectedLedger uid l ∧
    List.Chain' (fun r1 r2 => r1.end_time = r2.start_time)
      ((runStarts uid ⟨none, []⟩ l).ledger) ∧
    ∀ r ∈ (runStarts uid ⟨none, []⟩ l).ledger, r.start_time < r.end_time := by
  have hled := runStarts_from_idle uid l
  exact ⟨hled, hled ▸ expectedLedger_chain uid l, hled ▸ expectedLedger_pos uid l hinc⟩

/-- Witness for C3 on a concrete three-start day. -/
theorem C3_ledger_tiles_witness :
    (runStarts 1 ⟨none, []⟩ [("Проснулся", 0), ("Завтрак", 600), ("Игры", 1500)]).ledger
      = expectedLedger 1 [("Проснулся", 0), ("Завтрак", 600), ("Игры", 1500)] ∧
    List.Chain' (fun r1 r2 => r1.end_time = r2.start_time)
      ((runStarts 1 ⟨none, []⟩ [("Проснулся", 0), ("Завтрак", 600), ("Игры", 1500)]).ledger) ∧
    ∀ r ∈ (runStarts 1 ⟨none, []⟩
        [("Проснулся", 0), ("Завтрак", 600), ("Игры", 1500)]).ledger,
      r.start_time < r.end_time :=
  C3_ledger_tiles 1 [("Проснулся", 0), ("Завтрак", 600), ("Игры", 1500)]
    (by norm_num [List.chain'_cons])

/-! ## Claim C5 (day boundary vs display timezone) -/

/-- C5 counterexample: with the host process in UTC (offset `0`), the
record written at instant `72000` (23:00 Moscow, day 0) is selected into
the statistics queried at instant `79200` (01:00 Moscow, day 1) — the
filter matches although the two instants lie on *different* Moscow
(display-timezone) days, so the day boundary is not computed in the
display timezone. -/
theorem C5_boundary_not_display_tz :
    selectedToday 0 72000 79200 = true ∧ moscowDate 72000 ≠ moscowDate 79200 := by
  decide

/-- C5 amended: the filter compares the record's UTC calendar date (the
stored timestamp carries `+03:00`, which SQLite converts to UTC) with the
current date in the host's local timezone.  Even when the host runs in
Moscow time, a record lying on today's Moscow date is selected iff its
Moscow time of day is at least 03:00 (`10800` s): the effective boundary
is the UTC midnight, not the display timezone's. -/
theorem C5_boundary_utc_shift (rs now : Int) (h : moscowDate rs = moscowDate now) :
    selectedToday moscowOffset rs now = true ↔ moscowOffset ≤ moscowTimeOfDay rs := by
  simp only [selectedToday, utcDate, localDate, moscowDate, moscowTimeOfDay,
    moscowOffset, beq_iff_eq] at *
  omega

/-- Witness for C5 amended: at 03:00 Moscow on day 1 (instant `86400`),
queried at the same instant, the record is selected. -/
theorem C5_boundary_utc_shift_witness :
    selectedToday moscowOffset 86400 86400 = true :=
  (C5_boundary_utc_shift 86400 86400 rfl).mpr (by decide)

/-! ## Claim C10 (custom-activity length guard) -/

/-- C10: a custom ("Другое") activity text is accepted iff the stripped
text has at most 100 characters.  When longer, both custom-text handlers
return the state unchanged — the Session Store and Ledger are untouched
and the `user_states` entry (the awaiting-custom-text state under which
these handlers are dispatched) survives.  When accepted,
`handle_custom_activity` clears the FSM entry and starts
`"Другое: " + text`, while `handle_past_custom_activity` only advances
the FSM entry to `waiting_for_past_time`. -/
theorem C10_custom_length_guard (uid : Nat) (st : ChatState) (text : String)
    (now : Int) :
    (100 < (pyStrip text).length →
      handle_custom_activity uid st text now = st ∧
      handle_past_custom_activity uid st text = st) ∧
    ((pyStrip text).length ≤ 100 →
      handle_custom_activity uid st text now
        = ⟨none, handle_activity_start uid st.core ("Другое: " ++ pyStrip text) now⟩ ∧
      handle_past_custom_activity uid st text
        = ⟨some (.waiting_for_past_time ("Другое: " ++ pyStrip text)), st.core⟩) := by
  constructor
  · intro h
    constructor <;> simp [handle_custom_activity, handle_past_custom_activity, h]
  · intro h
    have h' : ¬ 100 < (pyStrip text).length := not_lt.mpr h
    constructor <;> simp [handle_custom_activity, handle_past_custom_activity, h']

/-- Witness for C10: a 101-character name is rejected with the whole state
(awaiting flag included) unchanged, and a short name is accepted. -/
theorem C10_custom_length_guard_witness :
    (100 < (pyStrip ⟨List.replicate 101 'a'⟩).length ∧
      handle_custom_activity 1 ⟨some .waiting_for_activity, ⟨none, []⟩⟩
        ⟨List.replicate 101 'a'⟩ 0
        = ⟨some .waiting_for_activity, ⟨none, []⟩⟩) ∧
    ((pyStrip "Читал").length ≤ 100 ∧
      handle_custom_activity 1 ⟨some .waiting_for_activity, ⟨none, []⟩⟩ "Читал" 0
        = ⟨none, handle_activity_start 1 ⟨none, []⟩ ("Другое: " ++ pyStrip "Читал") 0⟩) :=
  ⟨⟨by decide,
    ((C10_custom_length_guard 1 ⟨some .waiting_for_activity, ⟨none, []⟩⟩
        ⟨List.replicate 101 'a'⟩ 0).1 (by decide)).1⟩,
   ⟨by decide,
    ((C10_custom_length_guard 1 ⟨some .waiting_for_activity, ⟨none, []⟩⟩ "Читал" 0).2
        (by decide)).1⟩⟩

example : ("Другое: ".data = "Другое:".data ++ [' ']) := by decide

example : moscowDate 133200 = 1 := by decide

example (d r : Int) (h1 : 0 ≤ r) (h2 : r < 86400) : (d * 86400 + r) / 86400 = d := by omega

/-! ## Claim C4 (the summary rollup) -/

example :
    summarize [save_activity 1 "Игры" 0 60, save_activity 1 "Отдых" 60 180,
      save_activity 1 "Игры" 180 240]
      = [("Игры", 120), ("Отдых", 120)] := by decide

/-- C4 counterexample: two records with distinct activity names but the
same category `"Сон"` produce **two** summary groups — the summary is
keyed by (prefix-stripped) activity name, not by category as the claim
states. -/
theorem C4_groups_by_name_not_category :
    summarize [save_activity 1 "Проснулся" 0 60, save_activity 1 "Спать" 60 120]
      ≠ sortByTotal (category_totals
          [save_activity 1 "Проснулся" 0 60, save_activity 1 "Спать" 60 120]) ∧
    (save_activity 1 "Проснулся" 0 60).category = "Сон" ∧
    (save_activity 1 "Спать" 60 120).category = "Сон" ∧
    summarize [save_activity 1 "Проснулся" 0 60, save_activity 1 "Спать" 60 120]
      = [("Проснулся", 60), ("Спать", 60)] := by
  decide

lemma insertByTotal_perm (x : String × Int) (l : List (String × Int)) :
    List.Perm (insertByTotal x l) (x :: l) := by
  induction l with
  | nil => exact List.Perm.refl _
  | cons y ys ih =>
    unfold insertByTotal
    split
    · exact ((ih.cons y).trans (List.Perm.swap x y ys))
    · exact List.Perm.refl _

lemma sortByTotal_perm (l : List (String × Int)) : List.Perm (sortByTotal l) l := by
  induction l with
  | nil => exact List.Perm.refl _
  | cons x xs ih => exact (insertByTotal_perm x (sortByTotal xs)).trans (ih.cons x)

lemma insertByTotal_sorted (x : String × Int) (l : List (String × Int))
    (h : l.Pairwise (fun a b => b.2 ≤ a.2)) :
    (insertByTotal x l).Pairwise (fun a b => b.2 ≤ a.2) := by
  induction l with
  | nil => simp [insertByTotal]
  | cons y ys ih =>
    rw [List.pairwise_cons] at h
    unfold insertByTotal
    split
    · refine List.pairwise_cons.mpr ⟨?_, ih h.2⟩
      intro b hb
      rcases List.mem_cons.mp ((insertByTotal_perm x ys).subset hb) with rfl | hbys
      · next hxy => exact le_of_lt hxy
      · exact h.1 b hbys
    · next hxy =>
      refine List.pairwise_cons.mpr ⟨?_, List.pairwise_cons.mpr h⟩
      intro b hb
      rcases List.mem_cons.mp hb with rfl | hbys
      · exact le_of_not_lt hxy
      · exact le_trans (h.1 b hbys) (le_of_not_lt hxy)

lemma sortByTotal_sorted (l : List (String × Int)) :
    (sortByTotal l).Pairwise (fun a b => b.2 ≤ a.2) := by
  induction l with
  | nil => simp [sortByTotal]
  | cons x xs ih => exact insertByTotal_sorted x (sortByTotal xs) ih

lemma insertByTotal_filter (x : String × Int) (l : List (String × Int)) (v : Int) :
    (insertByTotal x l).filter (fun p => p.2 == v)
      = if x.2 = v then x :: l.filter (fun p => p.2 == v)
        else l.filter (fun p => p.2 == v) := by
  induction l with
  | nil =>
    by_cases hx : x.2 = v <;> simp [insertByTotal, List.filter_cons, hx]
  | cons y ys ih =>
    unfold insertByTotal
    split
    · next hxy =>
      by_cases hx : x.2 = v
      · have hy : ¬ y.2 = v := by omega
        simp [List.filter_cons, hx, hy, ih]
      · by_cases hy : y.2 = v <;> simp [List.filter_cons, hx, hy, ih]
    · by_cases hx : x.2 = v <;> simp [List.filter_cons, hx]

lemma sortByTotal_filter (l : List (String × Int)) (v : Int) :
    (sortByTotal l).filter (fun p => p.2 == v) = l.filter (fun p => p.2 == v) := by
  induction l with
  | nil => rfl
  | cons x xs ih =>
    show (insertByTotal x (sortByTotal xs)).filter (fun p => p.2 == v) = _
    rw [insertByTotal_filter]
    by_cases hx : x.2 = v <;> simp [List.filter_cons, hx, ih]

lemma map_eq_self_of_fix {α : Type} (f : α → α) :
    ∀ l : List α, (∀ x ∈ l, f x = x) → l.map f = l := by
  intro l
  induction l with
  | nil => intro _; rfl
  | cons a as ih =>
    intro h
    simp only [List.map_cons]
    rw [h a (List.mem_cons_self a as), ih (fun x hx => h x (List.mem_cons_of_mem a hx))]

lemma addTotal_keys_nodup (acc : List (String × Int)) (n : String) (d : Int)
    (h : (acc.map Prod.fst).Nodup) :
    ((addTotal acc n d).map Prod.fst).Nodup := by
  unfold addTotal
  split
  · have hkeys : (acc.map (fun p => if p.1 == n then (p.1, p.2 + d) else p)).map Prod.fst
        = acc.map Prod.fst := by
      rw [List.map_map]
      apply List.map_congr_left
      intro p _
      by_cases hp : p.1 = n <;> simp [hp]
    rw [hkeys]
    exact h
  · next hany =>
    have hnot : n ∉ acc.map Prod.fst := by
      intro hmem
      obtain ⟨p, hp, hfst⟩ := List.mem_map.mp hmem
      exact hany (List.any_eq_true.mpr ⟨p, hp, by simp [hfst]⟩)
    simp only [List.map_append, List.map_cons, List.map_nil]
    rw [List.nodup_append]
    exact ⟨h, List.nodup_singleton n, by simpa using hnot⟩

lemma sumFor_bump (n : String) (d : Int) (name : String) :
    ∀ acc : List (String × Int), (acc.map Prod.fst).Nodup →
      acc.any (fun p => p.1 == n) = true →
      sumFor (acc.map (fun p => if p.1 == n then (p.1, p.2 + d) else p)) name
        = sumFor acc name + (if n = name then d else 0) := by
  intro acc
  induction acc with
  | nil => intro _ hany; cases hany
  | cons p ps ih =>
    intro hnodup hany
    rw [List.map_cons, List.nodup_cons] at hnodup
    obtain ⟨hnotin, hnd2⟩ := hnodup
    by_cases hp : p.1 = n
    · have hfix : ps.map (fun p => if p.1 == n then (p.1, p.2 + d) else p) = ps := by
        apply map_eq_self_of_fix
        intro q hq
        have hq1 : q.1 ≠ n := fun hqn =>
          hnotin (List.mem_map.mpr ⟨q, hq, by rw [hqn, hp]⟩)
        simp [hq1]
      have hcond : (p.1 == n) = true := beq_iff_eq.mpr hp
      rw [List.map_cons, hfix]
      simp only [hcond, if_true, cond_true, sumFor]
      by_cases hn : p.1 = name
      · rw [if_pos hn, if_pos hn, if_pos (hp.symm.trans hn)]
        ring
      · rw [if_neg hn, if_neg hn, if_neg (fun h => hn (hp.trans h))]
        ring
    · have hcond : (p.1 == n) = false := beq_eq_false_iff_ne.mpr hp
      have hany' : ps.any (fun p => p.1 == n) = true := by
        rw [List.any_cons, hcond] at hany
        simpa using hany
      rw [List.map_cons]
      simp only [hcond, Bool.false_eq_true, if_false, sumFor, ih hnd2 hany']
      ring


lemma sumFor_append_single (acc : List (String × Int)) (n name : String) (d : Int) :
    sumFor (acc ++ [(n, d)]) name = sumFor acc name + (if n = name then d else 0) := by
  induction acc with
  | nil => simp [sumFor]
  | cons p ps ih =>
    simp only [List.cons_append, List.append_eq, sumFor] at ih ⊢
    rw [ih]
    ring

lemma sumFor_addTotal (acc : List (String × Int)) (n name : String) (d : Int)
    (hnodup : (acc.map Prod.fst).Nodup) :
    sumFor (addTotal acc n d) name = sumFor acc name + (if n = name then d else 0) := by
  unfold addTotal
  split
  · next hany => exact sumFor_bump n d name acc hnodup hany
  · exact sumFor_append_single acc n name d

lemma totals_aux_nodup (recs : List ActivityRecord) :
    ∀ acc : List (String × Int), (acc.map Prod.fst).Nodup →
      ((recs.foldl (fun acc r => addTotal acc (stripOther r.activity_name) r.duration)
          acc).map Prod.fst).Nodup := by
  induction recs with
  | nil => intro acc h; exact h
  | cons r rs ih =>
    intro acc h
    exact ih _ (addTotal_keys_nodup acc _ _ h)

lemma totals_aux_sum (name : String) :
    ∀ (recs : List ActivityRecord) (acc : List (String × Int)),
      (acc.map Prod.fst).Nodup →
      sumFor (recs.foldl (fun acc r => addTotal acc (stripOther r.activity_name) r.duration)
          acc) name
        = sumFor acc name + durationFor recs name := by
  intro recs
  induction recs with
  | nil => intro acc _; simp [durationFor]
  | cons r rs ih =>
    intro acc h
    simp only [List.foldl_cons, durationFor]
    rw [ih _ (addTotal_keys_nodup acc _ _ h),
      sumFor_addTotal acc _ name _ h]
    ring

lemma activity_totals_keys_nodup (recs : List ActivityRecord) :
    ((activity_totals recs).map Prod.fst).Nodup :=
  totals_aux_nodup recs [] (by simp)

lemma activity_totals_sum (recs : List ActivityRecord) (name : String) :
    sumFor (activity_totals recs) name = durationFor recs name := by
  have h := totals_aux_sum name recs [] (by simp)
  simpa [sumFor] using h

/-- C4 amended: the summary block of `format_detailed_statistics` groups
the day's records by **prefix-stripped activity name** (one group per
distinct name), sums `duration` per group (`sumFor` of the table equals
the summed durations of the matching records), and renders the groups in
descending order of total duration, stably — groups with equal totals
keep their first-encountered order (the filter at every total value `v`
is preserved by the sort). -/
theorem C4_summary_by_stripped_name (recs : List ActivityRecord) :
    List.Perm (summarize recs) (activity_totals recs) ∧
    List.Pairwise (fun a b : String × Int => b.2 ≤ a.2) (summarize recs) ∧
    (∀ v : Int, (summarize recs).filter (fun p => p.2 == v)
        = (activity_totals recs).filter (fun p => p.2 == v)) ∧
    ((activity_totals recs).map Prod.fst).Nodup ∧
    (∀ name : String, sumFor (activity_totals recs) name = durationFor recs name) :=
  ⟨sortByTotal_perm (activity_totals recs),
   sortByTotal_sorted (activity_totals recs),
   fun v => sortByTotal_filter (activity_totals recs) v,
   activity_totals_keys_nodup recs,
   fun name => activity_totals_sum recs name⟩

end TimeTrackerBot
